import Mathlib

/-!
Shallow embedding of src/main.py (FFMpegSplit): the time expression parser
(parse_time), the directive line parser (parse_track) and the segmentation
engine (get_timings with its helper get_next_line and the end-time
resolution pass).

Modelling conventions:
* Python strings are modelled as lists of characters; the regex digit class
  is modelled as the ASCII digits (the claims only involve ASCII input).
* Python numeric results (int / float seconds) are modelled exactly over
  the rationals; every arithmetic step of the source is an exact rational
  operation on the values involved in the claims.
* the filesystem check Path(line).exists() performed by get_timings is
  modelled by a boolean oracle fs passed as an argument.
* the file handle consumed by readline() is modelled by the list of line
  contents (without their trailing newline); end of file is the end of the
  list.  A mid-file blank line "\n" is the empty list of characters: like
  "\n" in Python it is truthy for the comment scan (it is not a comment)
  and strips to the empty string.
* error strings returned by parse_track / get_timings are modelled by the
  constructors of TrackErrKind / Diagnostic; each constructor carries the
  data that the corresponding Python format string interpolates.
-/

namespace FFMpegSplit

/-- Value of an ASCII digit character, modelling int() on one digit. -/
def digitVal (c : Char) : Nat := c.toNat - 48

/-- Value of a digit string, modelling Python int() on a matched group. -/
def digitsToNat (l : List Char) : Nat := l.foldl (fun a c => a * 10 + digitVal c) 0

/-- Python str.split(sep) for a one-character separator. -/
def splitOnChar (sep : Char) : List Char → List (List Char)
  | [] => [[]]
  | c :: cs =>
    if c = sep then [] :: splitOnChar sep cs
    else
      match splitOnChar sep cs with
      | [] => [[c]]
      | r :: rs => (c :: r) :: rs

/-- Two-character all-digit field, modelling the regex pieces `\d\d`. -/
def twoDigits (l : List Char) : Bool :=
  match l with
  | [a, b] => a.isDigit && b.isDigit
  | _ => false

/-- Matching of the tail `SS(\.ms)?` of TIME_RE against one colon-separated
segment: the segment must be two digits optionally followed by one dot and a
nonempty digit string.  Returns the seconds digits value and the optional
milliseconds digits value. -/
def parseSecMs (l : List Char) : Option (Nat × Option Nat) :=
  match splitOnChar '.' l with
  | [ss] => if twoDigits ss then some (digitsToNat ss, none) else none
  | [ss, ms] =>
    if twoDigits ss && !ms.isEmpty && ms.all Char.isDigit then
      some (digitsToNat ss, some (digitsToNat ms))
    else none
  | _ => none

/-- The arithmetic of parse_time in src/main.py lines 181-187:
seconds = int(S); += H*3600 if the hours group matched; += M*60 if the
minutes group matched; += int(ms)/1000 if the fractional group matched. -/
def timeVal (h m : Option Nat) (s : Nat) (ms : Option Nat) : ℚ :=
  (s : ℚ)
    + (match h with | some hv => (hv : ℚ) * 3600 | none => 0)
    + (match m with | some mv => (mv : ℚ) * 60 | none => 0)
    + (match ms with | some v => (v : ℚ) / 1000 | none => 0)

/-- parse_time of src/main.py lines 173-189.  The anchored regex
`((HH:)?MM:)?SS(\.ms)?` with two-digit HH/MM/SS is decomposed by the number
of colon-separated segments (a match can contain a colon only as one of the
two literal separators, so the segment count determines which optional
groups matched); each segment is then matched against its group.  Failure
of the regex is the Python return value False, modelled as none. -/
def parse_time (time : List Char) : Option ℚ :=
  match splitOnChar ':' time with
  | [sec] => (parseSecMs sec).map fun p => timeVal none none p.1 p.2
  | [m, sec] =>
    if twoDigits m then
      (parseSecMs sec).map fun p => timeVal none (some (digitsToNat m)) p.1 p.2
    else none
  | [h, m, sec] =>
    if twoDigits h && twoDigits m then
      (parseSecMs sec).map fun p =>
        timeVal (some (digitsToNat h)) (some (digitsToNat m)) p.1 p.2
    else none
  | _ => none

/-- The failure strings parse_track can return, in source order:
`must have a start time and a song name` (line 140),
`must follow the correct time syntax in the start time` (line 145),
`must have a song name` (line 156).  Each is a format string later
interpolated with the timing file name and the line number. -/
inductive TrackErrKind
  | missingStartAndName
  | badStartTime
  | missingSongName
  deriving DecidableEq, Repr

/-- The dict built by parse_track in src/main.py lines 162-167. -/
structure TrackRequest where
  start_time : ℚ
  end_time : Option ℚ
  song_name : List Char
  artist : Option (List Char)
  deriving DecidableEq, Repr

/-- parse_track of src/main.py lines 131-167: split on the bar separator,
require at least two fields, parse the start time, try the second field as
the end time falling back to the song name position, require a field at the
song name position, and take the following field (if any) as the artist. -/
def parse_track (track : List Char) : Except TrackErrKind TrackRequest :=
  match splitOnChar '|' track with
  | p0 :: p1 :: rest =>
    match parse_time p0 with
    | none => .error .badStartTime
    | some start_time =>
      match parse_time p1 with
      | none =>
        .ok { start_time := start_time, end_time := none,
              song_name := p1, artist := rest.head? }
      | some et =>
        match rest with
        | [] => .error .missingSongName
        | name :: rest2 =>
          .ok { start_time := start_time, end_time := some et,
                song_name := name, artist := rest2.head? }
  | _ => .error .missingStartAndName

instance {ε α : Type} [DecidableEq ε] [DecidableEq α] : DecidableEq (Except ε α)
  | .error a, .error b =>
    if h : a = b then .isTrue (congrArg Except.error h)
    else .isFalse fun hc => h (Except.error.inj hc)
  | .error _, .ok _ => .isFalse fun hc => Except.noConfusion hc
  | .ok _, .error _ => .isFalse fun hc => Except.noConfusion hc
  | .ok a, .ok b =>
    if h : a = b then .isTrue (congrArg Except.ok h)
    else .isFalse fun hc => h (Except.ok.inj hc)

/-- Python whitespace as removed by str.strip(). -/
def isSpaceChar (c : Char) : Bool :=
  c = ' ' || c = '\t' || c = '\n' || c = '\x0b' || c = '\x0c' || c = '\r'

/-- Python str.strip(): drop whitespace from both ends. -/
def strip (l : List Char) : List Char :=
  ((l.dropWhile isSpaceChar).reverse.dropWhile isSpaceChar).reverse

/-- get_next_line of src/main.py lines 118-129: read a line, skip every
line whose first character is the comment mark, and return the stripped
line together with how many lines were read.  At end of file readline()
returns the falsy empty string, so the scan stops and the empty line is
returned; a mid-file blank line is truthy, is not a comment, and strips to
the empty line.  The third component is the rest of the reader. -/
def get_next_line : List (List Char) → List Char × Nat × List (List Char)
  | [] => ([], 1, [])
  | l :: rest =>
    if l.head? = some '#' then
      let r := get_next_line rest
      (r.1, r.2.1 + 1, r.2.2)
    else (strip l, 1, rest)

/-- The failure strings get_timings can return: the missing music file
message of line 93 (carrying the music path and the timing file name) and a
parse_track message interpolated with the timing file name and the line
number at line 103. -/
inductive Diagnostic
  | missingMusicFile (musicFile : List Char) (timingFile : List Char)
  | badTrack (kind : TrackErrKind) (timingFile : List Char) (lineNum : Nat)
  deriving DecidableEq, Repr

/-- The dict built by get_timings: the music file path and the track list. -/
structure Timings where
  music_file : List Char
  tracks : List TrackRequest
  deriving DecidableEq, Repr

/-- The while loop of get_timings, src/main.py lines 96-108: as long as the
current line is truthy, parse it as a track; a parse failure returns the
interpolated error at once (discarding every track already parsed); a
success appends the track, reads the next real line and adds the consumed
line count to the running line number.  Here the loop state is entered just
before a read: the next real line is fetched first, then the body runs. -/
def timings_loop (tf : List Char) (reader : List (List Char)) (line_num : Nat) :
    Except Diagnostic (List TrackRequest) :=
  let g := get_next_line reader
  if h : g.1 = [] then .ok []
  else
    match parse_track g.1 with
    | .error k => .error (.badTrack k tf (line_num + g.2.1))
    | .ok t =>
      match timings_loop tf g.2.2 (line_num + g.2.1) with
      | .error d => .error d
      | .ok ts => .ok (t :: ts)
  termination_by reader.length
  decreasing_by
    have key : ∀ r : List (List Char), (get_next_line r).1 ≠ [] →
        (get_next_line r).2.2.length < r.length := by
      intro r
      induction r with
      | nil => intro hne; exact absurd rfl hne
      | cons l rest ih =>
        intro hne
        by_cases hc : l.head? = some '#'
        · have hg : get_next_line (l :: rest) =
              ((get_next_line rest).1, (get_next_line rest).2.1 + 1,
                (get_next_line rest).2.2) := by
            simp [get_next_line, hc]
          rw [hg] at hne ⊢
          exact Nat.lt_trans (ih hne) (Nat.lt_succ_self _)
        · simp [get_next_line, hc]
    exact key reader h

/-- The end-time resolution pass, src/main.py lines 112-115: for every
track but the last whose end_time is missing, copy the start_time of the
following track.  Only end_time is ever written and only start_time is ever
read, so the in-place loop is this one-pass rewriting. -/
def resolveEndTimes : List TrackRequest → List TrackRequest
  | t :: u :: rest =>
    (if t.end_time = none then { t with end_time := some u.start_time } else t)
      :: resolveEndTimes (u :: rest)
  | l => l

/-- The guard at src/main.py line 111: the pass only runs when more than
one track was parsed. -/
def adjust_end_times (tracks : List TrackRequest) : List TrackRequest :=
  if tracks.length > 1 then resolveEndTimes tracks else tracks

/-- get_timings of src/main.py lines 82-116: read the first real line as
the music file path, fail if that file does not exist (the existence test
Path(line).exists() is the oracle fs applied to the stripped line), then
run the track loop starting the line counter at the lines consumed so far,
and finally run the end-time resolution pass. -/
def get_timings (fs : List Char → Bool) (timing_file : List Char)
    (reader : List (List Char)) : Except Diagnostic Timings :=
  let g := get_next_line reader
  if fs g.1 then
    match timings_loop timing_file g.2.2 g.2.1 with
    | .error d => .error d
    | .ok ts => .ok ⟨g.1, adjust_end_times ts⟩
  else .error (.missingMusicFile g.1 timing_file)

/-- Rendering of a two-digit group of the time grammar. -/
def fmt2 (n : Nat) : List Char := [Char.ofNat (48 + n / 10), Char.ofNat (48 + n % 10)]

/-- Rendering of the optional fractional part of the time grammar. -/
def msPart : Option (List Char) → List Char
  | none => []
  | some ms => '.' :: ms

/-- Rendering of a word of the time grammar `[[HH:]MM:]SS[.ddd...]`: an
optional two-digit hour group, an optional two-digit minute group, a
mandatory two-digit second group and an optional nonempty fractional digit
string. -/
def renderTime (h m : Option Nat) (s : Nat) (ms : Option (List Char)) : List Char :=
  (match h with | none => [] | some hv => fmt2 hv ++ [':'])
    ++ (match m with | none => [] | some mv => fmt2 mv ++ [':'])
    ++ fmt2 s ++ msPart ms

/-- A reader line that the track loop passes over without failing: either a
comment line, or a line that strips to a nonempty string which parse_track
accepts. -/
def good_line (l : List Char) : Prop :=
  l.head? = some '#' ∨ (strip l ≠ [] ∧ ∃ t, parse_track (strip l) = .ok t)

/-- The track requests contributed by a list of reader lines, comment lines
contributing nothing and every other line contributing its parse. -/
def parsedTracks (lines : List (List Char)) : List TrackRequest :=
  lines.filterMap fun l =>
    if l.head? = some '#' then none else (parse_track (strip l)).toOption

example : parse_time ("01:02:03.5".data) = some ((3723 : ℚ) + 5 / 1000) := by
  simp +decide [parse_time, splitOnChar, parseSecMs, twoDigits, digitsToNat,
    digitVal, timeVal]
  norm_num
example : parse_time ("3.12".data) = none := by decide
example : parse_time ("03.12".data) = some ((3 : ℚ) + 12 / 1000) := by
  simp +decide [parse_time, splitOnChar, parseSecMs, twoDigits, digitsToNat,
    digitVal, timeVal]
example : parse_time ("99:99".data) = some (6039 : ℚ) := by
  simp +decide [parse_time, splitOnChar, parseSecMs, twoDigits, digitsToNat,
    digitVal, timeVal]
  norm_num
example : parse_time ("10".data) = some (10 : ℚ) := by
  simp +decide [parse_time, splitOnChar, parseSecMs, twoDigits, digitsToNat,
    digitVal, timeVal]
example : parse_time ("02.".data) = none := by decide
example : parse_time ("1:02".data) = none := by decide
example : parse_track ("10|Song".data) =
    .ok ⟨10, none, "Song".data, none⟩ := by
  simp +decide [parse_track, parse_time, splitOnChar, parseSecMs, twoDigits,
    digitsToNat, digitVal, timeVal]
example : parse_track ("10|Song|Artist".data) =
    .ok ⟨10, none, "Song".data, some "Artist".data⟩ := by
  simp +decide [parse_track, parse_time, splitOnChar, parseSecMs, twoDigits,
    digitsToNat, digitVal, timeVal]
example : parse_track ("10|".data) = .ok ⟨10, none, [], none⟩ := by
  simp +decide [parse_track, parse_time, splitOnChar, parseSecMs, twoDigits,
    digitsToNat, digitVal, timeVal]
example : parse_track ("10|20".data) = .error .missingSongName := by
  simp +decide [parse_track, parse_time, splitOnChar, parseSecMs, twoDigits,
    digitsToNat, digitVal, timeVal]
example : parse_track ("10".data) = .error .missingStartAndName := by decide
example : parse_track ("xx|y".data) = .error .badStartTime := by decide

lemma timings_loop_nil (tf : List Char) (n : Nat) :
    timings_loop tf [] n = .ok [] := by
  unfold timings_loop
  simp [get_next_line]

lemma timings_loop_stop (tf l : List Char) (rest : List (List Char)) (n : Nat)
    (h1 : l.head? ≠ some '#') (h2 : strip l = []) :
    timings_loop tf (l :: rest) n = .ok [] := by
  unfold timings_loop
  simp [get_next_line, h1, h2]

lemma timings_loop_comment (tf l : List Char) (rest : List (List Char)) (n : Nat)
    (h1 : l.head? = some '#') :
    timings_loop tf (l :: rest) n = timings_loop tf rest (n + 1) := by
  have hg : get_next_line (l :: rest) =
      ((get_next_line rest).1, (get_next_line rest).2.1 + 1,
        (get_next_line rest).2.2) := by
    simp [get_next_line, h1]
  have harith : n + ((get_next_line rest).2.1 + 1) =
      n + 1 + (get_next_line rest).2.1 := by omega
  conv_lhs => rw [timings_loop]
  conv_rhs => rw [timings_loop]
  rw [hg]
  simp only [harith]

lemma timings_loop_directive (tf l : List Char) (rest : List (List Char)) (n : Nat)
    (h1 : l.head? ≠ some '#') (h2 : strip l ≠ []) :
    timings_loop tf (l :: rest) n =
      (match parse_track (strip l) with
       | .error k => .error (.badTrack k tf (n + 1))
       | .ok t =>
         match timings_loop tf rest (n + 1) with
         | .error d => .error d
         | .ok ts => .ok (t :: ts)) := by
  have hg : get_next_line (l :: rest) = (strip l, 1, rest) := by
    simp [get_next_line, h1]
  conv_lhs => rw [timings_loop]
  rw [hg]
  simp only [h2, dite_false]

lemma get_next_line_comments (pre : List (List Char))
    (hpre : ∀ l ∈ pre, l.head? = some '#') (r : List (List Char)) :
    get_next_line (pre ++ r) =
      ((get_next_line r).1, (get_next_line r).2.1 + pre.length,
        (get_next_line r).2.2) := by
  induction pre with
  | nil => simp
  | cons l rest ih =>
    have hl : l.head? = some '#' := hpre l (List.mem_cons_self l rest)
    have hrest : ∀ x ∈ rest, x.head? = some '#' := fun x hx =>
      hpre x (List.mem_cons_of_mem l hx)
    have hg : get_next_line (l :: (rest ++ r)) =
        ((get_next_line (rest ++ r)).1, (get_next_line (rest ++ r)).2.1 + 1,
          (get_next_line (rest ++ r)).2.2) := by
      simp [get_next_line, hl]
    simp only [List.cons_append]
    rw [hg, ih hrest]
    simp only [List.length_cons, Prod.mk.injEq, true_and]
    constructor
    · omega
    · trivial

lemma timings_loop_reaches_bad :
    ∀ good : List (List Char), (∀ l ∈ good, good_line l) →
      ∀ (tf : List Char) (n : Nat) (bad : List Char) (rest : List (List Char))
        (k : TrackErrKind),
        bad.head? ≠ some '#' → strip bad ≠ [] →
        parse_track (strip bad) = .error k →
        timings_loop tf (good ++ bad :: rest) n =
          .error (.badTrack k tf (n + good.length + 1)) := by
  intro good
  induction good with
  | nil =>
    intro _ tf n bad rest k hb1 hb2 hb3
    rw [List.nil_append, timings_loop_directive tf bad rest n hb1 hb2, hb3]
    simp
  | cons g gs ih =>
    intro hg tf n bad rest k hb1 hb2 hb3
    have hgood : good_line g := hg g (List.mem_cons_self g gs)
    have hgs : ∀ l ∈ gs, good_line l := fun l hl => hg l (List.mem_cons_of_mem g hl)
    have hnum : n + 1 + gs.length + 1 = n + (g :: gs).length + 1 := by
      simp only [List.length_cons]
      omega
    by_cases hc : g.head? = some '#'
    · rw [List.cons_append, timings_loop_comment tf g _ n hc,
        ih hgs tf (n + 1) bad rest k hb1 hb2 hb3, hnum]
    · rcases hgood with hc2 | ⟨hne, t, ht⟩
      · exact absurd hc2 hc
      · rw [List.cons_append, timings_loop_directive tf g _ n hc hne, ht,
          ih hgs tf (n + 1) bad rest k hb1 hb2 hb3, hnum]

lemma timings_loop_good :
    ∀ lines : List (List Char), (∀ l ∈ lines, good_line l) →
      ∀ (tf : List Char) (n : Nat) (rest : List (List Char)),
        (rest = [] ∨ ∃ b r, rest = b :: r ∧ b.head? ≠ some '#' ∧ strip b = []) →
        timings_loop tf (lines ++ rest) n = .ok (parsedTracks lines) := by
  intro lines
  induction lines with
  | nil =>
    intro _ tf n rest hrest
    rcases hrest with rfl | ⟨b, r, rfl, hb1, hb2⟩
    · simpa [parsedTracks] using timings_loop_nil tf n
    · simpa [parsedTracks] using timings_loop_stop tf b r n hb1 hb2
  | cons g gs ih =>
    intro hg tf n rest hrest
    have hgood : good_line g := hg g (List.mem_cons_self g gs)
    have hgs : ∀ l ∈ gs, good_line l := fun l hl => hg l (List.mem_cons_of_mem g hl)
    by_cases hc : g.head? = some '#'
    · rw [List.cons_append, timings_loop_comment tf g _ n hc,
        ih hgs tf (n + 1) rest hrest]
      simp [parsedTracks, List.filterMap_cons, hc]
    · rcases hgood with hc2 | ⟨hne, t, ht⟩
      · exact absurd hc2 hc
      · rw [List.cons_append, timings_loop_directive tf g _ n hc hne, ht,
          ih hgs tf (n + 1) rest hrest]
        simp [parsedTracks, List.filterMap_cons, hc, ht, Except.toOption]

lemma resolveEndTimes_getElem? (l : List TrackRequest) : ∀ i : Nat,
    (resolveEndTimes l)[i]? = (l[i]?).map fun t =>
      match l[i + 1]? with
      | some u =>
        if t.end_time = none then { t with end_time := some u.start_time } else t
      | none => t := by
  induction l with
  | nil => intro i; simp [resolveEndTimes]
  | cons t rest ih =>
    cases rest with
    | nil =>
      intro i
      match i with
      | 0 => simp [resolveEndTimes]
      | Nat.succ j => simp [resolveEndTimes]
    | cons u rest2 =>
      intro i
      match i with
      | 0 => simp [resolveEndTimes]
      | Nat.succ j =>
        have hj := ih j
        simp only [List.getElem?_cons_succ] at hj
        simp only [resolveEndTimes, List.getElem?_cons_succ]
        exact hj

lemma resolveEndTimes_short (l : List TrackRequest) (h : l.length ≤ 1) :
    resolveEndTimes l = l := by
  match l with
  | [] => rfl
  | [t] => rfl
  | t :: u :: r =>
    simp only [List.length_cons] at h
    omega

lemma adjust_end_times_eq_resolve (l : List TrackRequest) :
    adjust_end_times l = resolveEndTimes l := by
  by_cases h : l.length > 1
  · simp [adjust_end_times, h]
  · simp [adjust_end_times, h]
    exact (resolveEndTimes_short l (by omega)).symm

lemma digit_char_spec : ∀ d : Nat, d < 10 →
    (Char.ofNat (48 + d)).isDigit = true ∧ digitVal (Char.ofNat (48 + d)) = d ∧
      Char.ofNat (48 + d) ≠ ':' ∧ Char.ofNat (48 + d) ≠ '.' := by decide

lemma fmt2_twoDigits (n : Nat) (h : n < 100) : twoDigits (fmt2 n) = true := by
  have h1 := digit_char_spec (n / 10) (by omega)
  have h2 := digit_char_spec (n % 10) (by omega)
  simp [fmt2, twoDigits, h1.1, h2.1]

lemma fmt2_value (n : Nat) (h : n < 100) : digitsToNat (fmt2 n) = n := by
  have h1 := digit_char_spec (n / 10) (by omega)
  have h2 := digit_char_spec (n % 10) (by omega)
  simp [digitsToNat, fmt2, h1.2.1, h2.2.1]
  omega

lemma fmt2_no_sep (n : Nat) (h : n < 100) :
    ∀ c ∈ fmt2 n, c ≠ ':' ∧ c ≠ '.' := by
  have h1 := digit_char_spec (n / 10) (by omega)
  have h2 := digit_char_spec (n % 10) (by omega)
  intro c hc
  simp only [fmt2, List.mem_cons, List.not_mem_nil, or_false] at hc
  rcases hc with rfl | rfl
  · exact ⟨h1.2.2.1, h1.2.2.2⟩
  · exact ⟨h2.2.2.1, h2.2.2.2⟩

lemma isDigit_ne_sep (c : Char) (h : c.isDigit = true) : c ≠ ':' ∧ c ≠ '.' := by
  constructor <;> rintro rfl <;> exact absurd h (by decide)

lemma splitOnChar_no_sep (sep : Char) :
    ∀ l : List Char, (∀ c ∈ l, c ≠ sep) → splitOnChar sep l = [l] := by
  intro l
  induction l with
  | nil => intro _; rfl
  | cons c cs ih =>
    intro h
    have hc : c ≠ sep := h c (List.mem_cons_self c cs)
    have hcs : ∀ x ∈ cs, x ≠ sep := fun x hx => h x (List.mem_cons_of_mem c hx)
    simp [splitOnChar, hc, ih hcs]

lemma splitOnChar_append (sep : Char) :
    ∀ a b : List Char, (∀ c ∈ a, c ≠ sep) →
      splitOnChar sep (a ++ sep :: b) = a :: splitOnChar sep b := by
  intro a
  induction a with
  | nil => intro b _; simp [splitOnChar]
  | cons c cs ih =>
    intro b h
    have hc : c ≠ sep := h c (List.mem_cons_self c cs)
    have hcs : ∀ x ∈ cs, x ≠ sep := fun x hx => h x (List.mem_cons_of_mem c hx)
    simp [splitOnChar, hc, ih b hcs]

lemma parseSecMs_fmt2 (s : Nat) (hs : s < 100) :
    parseSecMs (fmt2 s) = some (s, none) := by
  have h1 : splitOnChar '.' (fmt2 s) = [fmt2 s] :=
    splitOnChar_no_sep '.' (fmt2 s) (fun c hc => (fmt2_no_sep s hs c hc).2)
  simp [parseSecMs, h1, fmt2_twoDigits s hs, fmt2_value s hs]

lemma parseSecMs_ms (s : Nat) (ms : List Char) (hs : s < 100)
    (h1 : ms ≠ []) (h2 : ms.all Char.isDigit = true) :
    parseSecMs (fmt2 s ++ '.' :: ms) = some (s, some (digitsToNat ms)) := by
  have hsp : splitOnChar '.' (fmt2 s ++ '.' :: ms) = fmt2 s :: splitOnChar '.' ms :=
    splitOnChar_append '.' (fmt2 s) ms (fun c hc => (fmt2_no_sep s hs c hc).2)
  have hms : splitOnChar '.' ms = [ms] :=
    splitOnChar_no_sep '.' ms
      (fun c hc => (isDigit_ne_sep c (List.all_eq_true.1 h2 c hc)).2)
  simp [parseSecMs, hsp, hms, fmt2_twoDigits s hs, fmt2_value s hs, h1, h2]

lemma parseSecMs_tail (s : Nat) (ms : Option (List Char)) (hs : s < 100)
    (hms : match ms with
           | none => True
           | some l => l ≠ [] ∧ l.all Char.isDigit = true) :
    parseSecMs (fmt2 s ++ msPart ms) = some (s, ms.map digitsToNat) := by
  cases ms with
  | none => simpa [msPart] using parseSecMs_fmt2 s hs
  | some l => simpa [msPart] using parseSecMs_ms s l hs hms.1 hms.2

lemma secPart_no_colon (s : Nat) (ms : Option (List Char)) (hs : s < 100)
    (hms : match ms with
           | none => True
           | some l => l ≠ [] ∧ l.all Char.isDigit = true) :
    ∀ c ∈ fmt2 s ++ msPart ms, c ≠ ':' := by
  intro c hc
  rcases List.mem_append.1 hc with hf | hmsp
  · exact (fmt2_no_sep s hs c hf).1
  · cases ms with
    | none => simp [msPart] at hmsp
    | some l =>
      simp only [msPart, List.mem_cons] at hmsp
      rcases hmsp with rfl | hl
      · decide
      · exact (isDigit_ne_sep c (List.all_eq_true.1 hms.2 c hl)).1

lemma parse_time_renderTime (h m : Option Nat) (s : Nat) (ms : Option (List Char))
    (hh : h.getD 0 < 100) (hm : m.getD 0 < 100) (hs : s < 100)
    (hpre : h.isSome = true → m.isSome = true)
    (hms : match ms with
           | none => True
           | some l => l ≠ [] ∧ l.all Char.isDigit = true) :
    parse_time (renderTime h m s ms) =
      some (timeVal h m s (ms.map digitsToNat)) := by
  cases h with
  | none =>
    cases m with
    | none =>
      have hsp : splitOnChar ':' (fmt2 s ++ msPart ms) = [fmt2 s ++ msPart ms] :=
        splitOnChar_no_sep ':' _ (secPart_no_colon s ms hs hms)
      simp [renderTime, parse_time, hsp, parseSecMs_tail s ms hs hms]
    | some mv =>
      simp only [Option.getD_some] at hm
      have hsp : splitOnChar ':' (fmt2 mv ++ ':' :: (fmt2 s ++ msPart ms)) =
          fmt2 mv :: splitOnChar ':' (fmt2 s ++ msPart ms) :=
        splitOnChar_append ':' (fmt2 mv) _ (fun c hc => (fmt2_no_sep mv hm c hc).1)
      have hsp2 : splitOnChar ':' (fmt2 s ++ msPart ms) = [fmt2 s ++ msPart ms] :=
        splitOnChar_no_sep ':' _ (secPart_no_colon s ms hs hms)
      have hr : renderTime none (some mv) s ms =
          fmt2 mv ++ ':' :: (fmt2 s ++ msPart ms) := by
        simp [renderTime]
      rw [hr]
      simp [parse_time, hsp, hsp2, fmt2_twoDigits mv hm, fmt2_value mv hm,
        parseSecMs_tail s ms hs hms]
  | some hv =>
    cases m with
    | none => exact absurd (hpre rfl) (by simp)
    | some mv =>
      simp only [Option.getD_some] at hh hm
      have hsp : splitOnChar ':'
          (fmt2 hv ++ ':' :: (fmt2 mv ++ ':' :: (fmt2 s ++ msPart ms))) =
          fmt2 hv :: splitOnChar ':' (fmt2 mv ++ ':' :: (fmt2 s ++ msPart ms)) :=
        splitOnChar_append ':' (fmt2 hv) _ (fun c hc => (fmt2_no_sep hv hh c hc).1)
      have hsp2 : splitOnChar ':' (fmt2 mv ++ ':' :: (fmt2 s ++ msPart ms)) =
          fmt2 mv :: splitOnChar ':' (fmt2 s ++ msPart ms) :=
        splitOnChar_append ':' (fmt2 mv) _ (fun c hc => (fmt2_no_sep mv hm c hc).1)
      have hsp3 : splitOnChar ':' (fmt2 s ++ msPart ms) = [fmt2 s ++ msPart ms] :=
        splitOnChar_no_sep ':' _ (secPart_no_colon s ms hs hms)
      have hr : renderTime (some hv) (some mv) s ms =
          fmt2 hv ++ ':' :: (fmt2 mv ++ ':' :: (fmt2 s ++ msPart ms)) := by
        simp [renderTime]
      rw [hr]
      simp [parse_time, hsp, hsp2, hsp3, fmt2_twoDigits hv hh, fmt2_value hv hh,
        fmt2_twoDigits mv hm, fmt2_value mv hm, parseSecMs_tail s ms hs hms]

lemma resolveEndTimes_length : ∀ l : List TrackRequest,
    (resolveEndTimes l).length = l.length
  | [] => rfl
  | [_] => rfl
  | t :: u :: rest => by
    simp only [resolveEndTimes, List.length_cons]
    rw [resolveEndTimes_length (u :: rest)]
    simp

/-- C1 (amended): for every word of the time grammar, parse_time succeeds
and returns hours times 3600 plus minutes times 60 plus seconds plus the
literal fractional digit string read as an integer and divided by 1000; in
particular on 01:02:03.5 its value is 3723.005 (the fractional digit
string 5 contributes 5/1000). -/
theorem parse_time_grammar_total (h m : Option Nat) (s : Nat) (ms : Option (List Char))
    (hh : h.getD 0 < 100) (hm : m.getD 0 < 100) (hs : s < 100)
    (hpre : h.isSome = true → m.isSome = true)
    (hms : match ms with
           | none => True
           | some l => l ≠ [] ∧ l.all Char.isDigit = true) :
    parse_time (renderTime h m s ms) =
      some ((h.getD 0 : ℚ) * 3600 + (m.getD 0 : ℚ) * 60 + (s : ℚ)
        + ((ms.map digitsToNat).getD 0 : ℚ) / 1000)
    ∧ parse_time ("01:02:03.5".data) = some ((3723 : ℚ) + 5 / 1000) := by
  constructor
  · rw [parse_time_renderTime h m s ms hh hm hs hpre hms]
    congr 1
    cases h <;> cases m <;> cases ms <;> simp [timeVal] <;> ring
  · simp +decide [parse_time, splitOnChar, parseSecMs, twoDigits, digitsToNat,
      digitVal, timeVal]
    norm_num

theorem parse_time_grammar_total_witness :
    parse_time (renderTime (some 1) (some 2) 3 (some ['5'])) =
      some ((1 : ℚ) * 3600 + (2 : ℚ) * 60 + (3 : ℚ) + (5 : ℚ) / 1000) := by
  have hw := (parse_time_grammar_total (some 1) (some 2) 3 (some ['5'])
    (by decide) (by decide) (by decide) (fun _ => rfl) (by decide)).1
  simpa +decide [digitsToNat, digitVal] using hw

/-- C1 counterexample: parse_time on 01:02:03.5 returns 3723.005, not the
3723.5 stated by the specification. -/
theorem parse_time_spec_example_false :
    parse_time ("01:02:03.5".data) = some ((3723 : ℚ) + 5 / 1000)
    ∧ parse_time ("01:02:03.5".data) ≠ some ((7447 : ℚ) / 2) := by
  constructor
  · simp +decide [parse_time, splitOnChar, parseSecMs, twoDigits, digitsToNat,
      digitVal, timeVal]
    norm_num
  · intro hcontra
    have h1 : parse_time ("01:02:03.5".data) = some ((3723 : ℚ) + 5 / 1000) := by
      simp +decide [parse_time, splitOnChar, parseSecMs, twoDigits, digitsToNat,
        digitVal, timeVal]
      norm_num
    rw [h1] at hcontra
    simp at hcontra
    norm_num at hcontra

/-- C2 (amended): parse_time rejects 3.12 because the seconds group of the
grammar is exactly two digits; on the two-digit variant 03.12 it returns
3.012, the literal fractional digits 12 divided by 1000. -/
theorem parse_time_two_digit_seconds :
    parse_time ("3.12".data) = none
    ∧ parse_time ("03.12".data) = some ((3 : ℚ) + 12 / 1000) := by
  constructor
  · decide
  · simp +decide [parse_time, splitOnChar, parseSecMs, twoDigits, digitsToNat,
      digitVal, timeVal]

/-- C2 counterexample: parse_time on 3.12 is the invalid result, not the
value 3.012 stated by the specification. -/
theorem parse_time_one_digit_seconds_fails :
    parse_time ("3.12".data) ≠ some ((3 : ℚ) + 12 / 1000) := by
  decide

/-- C3: the resolution pass keeps the track count, gives every track that
has an absent end time and a following track the start time of that
following track, leaves a track with a present end time or with no
following track unchanged, and is the identity on lists of at most one
track. -/
theorem end_time_resolution_spec (tracks : List TrackRequest) :
    (adjust_end_times tracks).length = tracks.length
    ∧ (∀ i t u, tracks[i]? = some t → tracks[i + 1]? = some u →
        t.end_time = none →
        (adjust_end_times tracks)[i]? = some { t with end_time := some u.start_time })
    ∧ (∀ i t, tracks[i]? = some t →
        (t.end_time ≠ none ∨ tracks[i + 1]? = none) →
        (adjust_end_times tracks)[i]? = some t)
    ∧ (tracks.length ≤ 1 → adjust_end_times tracks = tracks) := by
  refine ⟨?_, ?_, ?_, ?_⟩
  · rw [adjust_end_times_eq_resolve]
    exact resolveEndTimes_length tracks
  · intro i t u h1 h2 h3
    rw [adjust_end_times_eq_resolve, resolveEndTimes_getElem? tracks i, h1, h2]
    simp [h3]
  · intro i t h1 h4
    rcases h4 with h4 | h4
    · rw [adjust_end_times_eq_resolve, resolveEndTimes_getElem? tracks i, h1]
      cases hu : tracks[i + 1]? <;> simp [h4]
    · rw [adjust_end_times_eq_resolve, resolveEndTimes_getElem? tracks i, h1, h4]
      simp
  · intro hlen
    have hnot : ¬ tracks.length > 1 := by omega
    simp [adjust_end_times, hnot]

theorem end_time_resolution_spec_witness :
    (adjust_end_times [⟨10, none, ['a'], none⟩, ⟨20, some 30, ['b'], none⟩])[0]? =
      some ⟨10, some 20, ['a'], none⟩ := by
  have hw := (end_time_resolution_spec
      [⟨10, none, ['a'], none⟩, ⟨20, some 30, ['b'], none⟩]).2.1 0
    ⟨10, none, ['a'], none⟩ ⟨20, some 30, ['b'], none⟩ rfl rfl rfl
  simpa using hw

/-- C4: when the second bar-separated field of a directive line does not
parse as a time it becomes the song name (the end time stays absent) and a
following field becomes the artist; when it does parse as a time it is
always consumed as the end time; with the two concrete instances of the
specification. -/
theorem parse_track_field2_fallback :
    (∀ (line p0 p1 : List Char) (rest : List (List Char)) (st : ℚ),
        splitOnChar '|' line = p0 :: p1 :: rest →
        parse_time p0 = some st → parse_time p1 = none →
        parse_track line = .ok ⟨st, none, p1, rest.head?⟩)
    ∧ (∀ (line p0 p1 name : List Char) (rest2 : List (List Char)) (st et : ℚ),
        splitOnChar '|' line = p0 :: p1 :: name :: rest2 →
        parse_time p0 = some st → parse_time p1 = some et →
        parse_track line = .ok ⟨st, some et, name, rest2.head?⟩)
    ∧ parse_track ("10|Song".data) = .ok ⟨10, none, "Song".data, none⟩
    ∧ parse_track ("10|Song|Artist".data) =
        .ok ⟨10, none, "Song".data, some "Artist".data⟩ := by
  refine ⟨?_, ?_, ?_, ?_⟩
  · intro line p0 p1 rest st hsplit h0 h1
    simp [parse_track, hsplit, h0, h1]
  · intro line p0 p1 name rest2 st et hsplit h0 h1
    simp [parse_track, hsplit, h0, h1]
  · simp +decide [parse_track, parse_time, splitOnChar, parseSecMs, twoDigits,
      digitsToNat, digitVal, timeVal]
  · simp +decide [parse_track, parse_time, splitOnChar, parseSecMs, twoDigits,
      digitsToNat, digitVal, timeVal]

theorem parse_track_field2_fallback_witness :
    parse_track ("10|X".data) = .ok ⟨10, none, "X".data, none⟩ := by
  have hw := parse_track_field2_fallback.1 ("10|X".data) ("10".data) ("X".data)
    [] 10 (by decide)
    (by simp +decide [parse_time, splitOnChar, parseSecMs, twoDigits,
      digitsToNat, digitVal, timeVal])
    (by decide)
  simpa using hw

/-- C5 (amended): parse_track returns the missing song name diagnostic
exactly when no field is left at the song name position, that is when the
second field was consumed as an end time and no third field exists; and a
line with fewer than two bar-separated fields returns the missing start
time and song name diagnostic.  A present but empty song name field is not
rejected. -/
theorem parse_track_song_name_diagnostics :
    (∀ (line p0 p1 : List Char) (st et : ℚ),
        splitOnChar '|' line = [p0, p1] →
        parse_time p0 = some st → parse_time p1 = some et →
        parse_track line = .error .missingSongName)
    ∧ (∀ line : List Char, (splitOnChar '|' line).length < 2 →
        parse_track line = .error .missingStartAndName) := by
  constructor
  · intro line p0 p1 st et hsplit h0 h1
    simp [parse_track, hsplit, h0, h1]
  · intro line hlen
    match hsplit : splitOnChar '|' line with
    | [] => simp [parse_track, hsplit]
    | [x] => simp [parse_track, hsplit]
    | a :: b :: r =>
      rw [hsplit] at hlen
      simp only [List.length_cons] at hlen
      omega

theorem parse_track_song_name_diagnostics_witness :
    parse_track ("10|20".data) = .error .missingSongName
    ∧ parse_track ("10".data) = .error .missingStartAndName := by
  constructor
  · exact parse_track_song_name_diagnostics.1 ("10|20".data) ("10".data)
      ("20".data) 10 20 (by decide)
      (by simp +decide [parse_time, splitOnChar, parseSecMs, twoDigits,
        digitsToNat, digitVal, timeVal])
      (by simp +decide [parse_time, splitOnChar, parseSecMs, twoDigits,
        digitsToNat, digitVal, timeVal])
  · exact parse_track_song_name_diagnostics.2 ("10".data) (by decide)

/-- C5 counterexample: the two-field line 10| has an empty second field;
parse_track takes that empty string as the song name and returns a track
request instead of a diagnostic. -/
theorem parse_track_accepts_empty_song_name :
    splitOnChar '|' ("10|".data) = ["10".data, []]
    ∧ parse_track ("10|".data) = .ok ⟨10, none, [], none⟩ := by
  constructor
  · decide
  · simp +decide [parse_track, parse_time, splitOnChar, parseSecMs, twoDigits,
      digitsToNat, digitVal, timeVal]

/-- C10: parse_time performs no range validation: every two-digit minute
and second value below 100 is accepted in the MM:SS form, every two-digit
hour, minute and second value in the HH:MM:SS form, and in particular
99:99 is accepted with value 6039. -/
theorem parse_time_no_range_validation :
    (∀ m s : Nat, m < 100 → s < 100 →
        parse_time (renderTime none (some m) s none) = some ((m : ℚ) * 60 + s))
    ∧ (∀ hv m s : Nat, hv < 100 → m < 100 → s < 100 →
        parse_time (renderTime (some hv) (some m) s none) =
          some ((hv : ℚ) * 3600 + (m : ℚ) * 60 + s))
    ∧ parse_time ("99:99".data) = some (6039 : ℚ) := by
  refine ⟨?_, ?_, ?_⟩
  · intro m s hmlt hslt
    rw [parse_time_renderTime none (some m) s none (by decide) (by simpa) hslt
      (by simp) trivial]
    congr 1
    simp [timeVal]
    ring
  · intro hv m s hhlt hmlt hslt
    rw [parse_time_renderTime (some hv) (some m) s none (by simpa) (by simpa)
      hslt (fun _ => rfl) trivial]
    congr 1
    simp [timeVal]
    ring
  · simp +decide [parse_time, splitOnChar, parseSecMs, twoDigits, digitsToNat,
      digitVal, timeVal]
    norm_num

theorem parse_time_no_range_validation_witness :
    parse_time (renderTime none (some 99) 99 none) = some ((99 : ℚ) * 60 + 99) :=
  parse_time_no_range_validation.1 99 99 (by decide) (by decide)

lemma dropWhile_of_all_false {p : Char → Bool} :
    ∀ l : List Char, (∀ c ∈ l, p c = false) → List.dropWhile p l = l
  | [], _ => rfl
  | c :: cs, h => by
    simp [List.dropWhile, h c (List.mem_cons_self c cs)]

lemma strip_no_space (l : List Char) (h : ∀ c ∈ l, isSpaceChar c = false) :
    strip l = l := by
  rw [strip, dropWhile_of_all_false l h,
    dropWhile_of_all_false l.reverse (fun c hc => h c (List.mem_reverse.1 hc)),
    List.reverse_reverse]

/-- C7: when the first real line of the timing file names a music file the
filesystem does not contain, get_timings returns exactly the one diagnostic
carrying that path and the timing file name, whatever lines follow: no
track line is parsed and no track is produced. -/
theorem get_timings_missing_music_file (fs : List Char → Bool) (tf : List Char)
    (pre : List (List Char)) (music : List Char)
    (hpre : ∀ l ∈ pre, l.head? = some '#')
    (hmc : music.head? ≠ some '#') (hfs : fs (strip music) = false) :
    ∀ rest : List (List Char),
      get_timings fs tf (pre ++ music :: rest) =
        .error (.missingMusicFile (strip music) tf) := by
  intro rest
  have hgn : get_next_line (pre ++ music :: rest) =
      (strip music, 1 + pre.length, rest) := by
    rw [get_next_line_comments pre hpre (music :: rest)]
    simp [get_next_line, hmc]
  simp [get_timings, hgn, hfs]

theorem get_timings_missing_music_file_witness :
    get_timings (fun _ => false) ("t".data) [['#', 'c'], "m".data, "10|a".data] =
      .error (.missingMusicFile ("m".data) ("t".data)) := by
  have hw := get_timings_missing_music_file (fun _ => false) ("t".data)
    [['#', 'c']] ("m".data) (by decide) (by decide) rfl ["10|a".data]
  rw [strip_no_space ("m".data) (by decide)] at hw
  simpa using hw

/-- C6 (amended): if the track loop reaches a malformed directive line —
every real line before it being a comment or a nonempty successfully
parsed directive — then get_timings returns exactly the one diagnostic for
that line at its one-based position, whatever lines follow it, and returns
no track list at all. -/
theorem get_timings_bad_line_aborts (fs : List Char → Bool) (tf music : List Char)
    (good : List (List Char)) (bad : List Char) (k : TrackErrKind)
    (hmc : music.head? ≠ some '#') (hfs : fs (strip music) = true)
    (hg : ∀ l ∈ good, good_line l)
    (hb1 : bad.head? ≠ some '#') (hb2 : strip bad ≠ [])
    (hb3 : parse_track (strip bad) = .error k) :
    ∀ rest : List (List Char),
      get_timings fs tf (music :: good ++ bad :: rest) =
        .error (.badTrack k tf (good.length + 2)) := by
  intro rest
  have hgn : get_next_line (music :: (good ++ bad :: rest)) =
      (strip music, 1, good ++ bad :: rest) := by
    simp [get_next_line, hmc]
  have hloop := timings_loop_reaches_bad good hg tf 1 bad rest k hb1 hb2 hb3
  have hn : 1 + good.length + 1 = good.length + 2 := by omega
  rw [hn] at hloop
  simp [get_timings, hgn, hfs, hloop]

theorem get_timings_bad_line_aborts_witness :
    get_timings (fun _ => true) ("t".data)
      (("m".data) :: [['#', 'c'], "10|a".data] ++ ("xx|b".data) :: ["99|z".data]) =
      .error (.badTrack .badStartTime ("t".data) 4) := by
  have hw := get_timings_bad_line_aborts (fun _ => true) ("t".data) ("m".data)
    [['#', 'c'], "10|a".data] ("xx|b".data) .badStartTime (by decide) rfl
    (by
      intro l hl
      simp only [List.mem_cons, List.not_mem_nil, or_false] at hl
      rcases hl with rfl | rfl
      · exact Or.inl (by decide)
      · refine Or.inr ⟨?_, ⟨10, none, "a".data, none⟩, ?_⟩
        · rw [strip_no_space _ (by decide)]
          decide
        · rw [strip_no_space _ (by decide)]
          simp +decide [parse_track, parse_time, splitOnChar, parseSecMs,
            twoDigits, digitsToNat, digitVal, timeVal])
    (by decide)
    (by rw [strip_no_space _ (by decide)]; decide)
    (by rw [strip_no_space _ (by decide)]; decide)
    ["99|z".data]
  simpa using hw

/-- C6 counterexample: a timing file containing the malformed directive
line xx|y after a blank line is processed without any diagnostic: the
blank line ends the track loop, so get_timings returns a track list (here
empty) and the malformed line is never examined. -/
theorem get_timings_blank_line_hides_bad_line :
    parse_track (strip ("xx|y".data)) = .error .badStartTime
    ∧ get_timings (fun _ => true) ("t".data) ["m".data, [], "xx|y".data] =
        .ok ⟨"m".data, []⟩ := by
  constructor
  · rw [strip_no_space _ (by decide)]
    decide
  · have hloop : timings_loop ("t".data) [[], "xx|y".data] 1 = .ok [] :=
      timings_loop_stop ("t".data) [] ["xx|y".data] 1 (by decide) (by decide)
    have hgn : get_next_line ["m".data, [], "xx|y".data] =
        ("m".data, 1, [[], "xx|y".data]) := by
      have h0 : get_next_line ["m".data, [], "xx|y".data] =
          (strip ("m".data), 1, [[], "xx|y".data]) := by
        simp [get_next_line]
      rw [strip_no_space _ (by decide)] at h0
      exact h0
    simp [get_timings, hgn, hloop, adjust_end_times]

/-- C8 (amended): after the music line, every non-comment line before the
first blank line (or before end of file) is passed to the directive
parser and contributes its parse to the track list; a blank or
whitespace-only line ends directive processing for the file, so lines
after it are not parsed. -/
theorem get_timings_parses_lines_until_blank (fs : List Char → Bool)
    (tf music : List Char) (lines rest : List (List Char))
    (hmc : music.head? ≠ some '#') (hfs : fs (strip music) = true)
    (hg : ∀ l ∈ lines, good_line l)
    (hrest : rest = [] ∨ ∃ b r, rest = b :: r ∧ b.head? ≠ some '#' ∧ strip b = []) :
    get_timings fs tf (music :: lines ++ rest) =
      .ok ⟨strip music, adjust_end_times (parsedTracks lines)⟩ := by
  have hgn : get_next_line (music :: (lines ++ rest)) =
      (strip music, 1, lines ++ rest) := by
    simp [get_next_line, hmc]
  have hloop := timings_loop_good lines hg tf 1 rest hrest
  simp [get_timings, hgn, hfs, hloop]

theorem get_timings_parses_lines_until_blank_witness :
    get_timings (fun _ => true) ("t".data)
      (("m".data) :: ["10|a".data, ['#', 'c'], "20|b".data] ++ [' '] :: ["zz".data]) =
      .ok ⟨"m".data, [⟨10, some 20, "a".data, none⟩, ⟨20, none, "b".data, none⟩]⟩ := by
  have hs1 : strip ("10|a".data) = "10|a".data := strip_no_space _ (by decide)
  have hs2 : strip ("20|b".data) = "20|b".data := strip_no_space _ (by decide)
  have hw := get_timings_parses_lines_until_blank (fun _ => true) ("t".data)
    ("m".data) ["10|a".data, ['#', 'c'], "20|b".data] ([' '] :: ["zz".data])
    (by decide) rfl
    (by
      intro l hl
      simp only [List.mem_cons, List.not_mem_nil, or_false] at hl
      rcases hl with rfl | rfl | rfl
      · refine Or.inr ⟨?_, ⟨10, none, "a".data, none⟩, ?_⟩
        · rw [hs1]; decide
        · rw [hs1]
          simp +decide [parse_track, parse_time, splitOnChar, parseSecMs,
            twoDigits, digitsToNat, digitVal, timeVal]
      · exact Or.inl (by decide)
      · refine Or.inr ⟨?_, ⟨20, none, "b".data, none⟩, ?_⟩
        · rw [hs2]; decide
        · rw [hs2]
          simp +decide [parse_track, parse_time, splitOnChar, parseSecMs,
            twoDigits, digitsToNat, digitVal, timeVal])
    (Or.inr ⟨[' '], ["zz".data], rfl, by decide, by decide⟩)
  rw [strip_no_space ("m".data) (by decide)] at hw
  have hpt : parsedTracks ["10|a".data, ['#', 'c'], "20|b".data] =
      [⟨10, none, "a".data, none⟩, ⟨20, none, "b".data, none⟩] := by
    simp only [parsedTracks, List.filterMap_cons, hs1, hs2]
    simp +decide [parse_track, parse_time, splitOnChar, parseSecMs, twoDigits,
      digitsToNat, digitVal, timeVal, Except.toOption]
  rw [hpt] at hw
  have hadj : adjust_end_times
      [⟨10, none, "a".data, none⟩, ⟨20, none, "b".data, none⟩] =
      [⟨10, some 20, "a".data, none⟩, ⟨20, none, "b".data, none⟩] := by
    simp [adjust_end_times, resolveEndTimes]
  rw [hadj] at hw
  exact hw

/-- C8 counterexample: the directive line 10|a after a whitespace-only
line is never parsed: the blank line ends the track loop and get_timings
returns an empty track list although the file contains a later valid
directive line. -/
theorem get_timings_blank_line_stops_parsing :
    parse_track (strip ("10|a".data)) = .ok ⟨10, none, "a".data, none⟩
    ∧ get_timings (fun _ => true) ("t".data) ["m".data, [' '], "10|a".data] =
        .ok ⟨"m".data, []⟩ := by
  constructor
  · rw [strip_no_space _ (by decide)]
    simp +decide [parse_track, parse_time, splitOnChar, parseSecMs, twoDigits,
      digitsToNat, digitVal, timeVal]
  · have hloop : timings_loop ("t".data) [[' '], "10|a".data] 1 = .ok [] :=
      timings_loop_stop ("t".data) [' '] ["10|a".data] 1 (by decide) (by decide)
    have hgn : get_next_line ["m".data, [' '], "10|a".data] =
        ("m".data, 1, [[' '], "10|a".data]) := by
      have h0 : get_next_line ["m".data, [' '], "10|a".data] =
          (strip ("m".data), 1, [[' '], "10|a".data]) := by
        simp [get_next_line]
      rw [strip_no_space _ (by decide)] at h0
      exact h0
    simp [get_timings, hgn, hloop, adjust_end_times]

/-- C9: a comment line never produces a track request — a file whose lines
after the music line are all comments yields zero tracks — and comment
lines are counted for error line numbering: a malformed line after the
music line and a block of comment lines is reported at its true one-based
position in the file. -/
theorem get_timings_comment_lines (fs : List Char → Bool) (tf music : List Char)
    (hmc : music.head? ≠ some '#') (hfs : fs (strip music) = true) :
    (∀ coms : List (List Char), (∀ l ∈ coms, l.head? = some '#') →
        get_timings fs tf (music :: coms) = .ok ⟨strip music, []⟩)
    ∧ (∀ (coms : List (List Char)) (bad : List Char) (rest : List (List Char))
          (k : TrackErrKind), (∀ l ∈ coms, l.head? = some '#') →
        bad.head? ≠ some '#' → strip bad ≠ [] →
        parse_track (strip bad) = .error k →
        get_timings fs tf (music :: coms ++ bad :: rest) =
          .error (.badTrack k tf (coms.length + 2))) := by
  constructor
  · intro coms hcoms
    have hgn : get_next_line (music :: coms) = (strip music, 1, coms) := by
      simp [get_next_line, hmc]
    have hloop := timings_loop_good coms (fun l hl => Or.inl (hcoms l hl))
      tf 1 [] (Or.inl rfl)
    rw [List.append_nil] at hloop
    have hpt : parsedTracks coms = [] := by
      refine List.filterMap_eq_nil_iff.2 fun l hl => ?_
      simp [hcoms l hl]
    rw [hpt] at hloop
    simp [get_timings, hgn, hfs, hloop, adjust_end_times]
  · intro coms bad rest k hcoms hb1 hb2 hb3
    have hgn : get_next_line (music :: (coms ++ bad :: rest)) =
        (strip music, 1, coms ++ bad :: rest) := by
      simp [get_next_line, hmc]
    have hloop := timings_loop_reaches_bad coms (fun l hl => Or.inl (hcoms l hl))
      tf 1 bad rest k hb1 hb2 hb3
    have hn : 1 + coms.length + 1 = coms.length + 2 := by omega
    rw [hn] at hloop
    simp [get_timings, hgn, hfs, hloop]

theorem get_timings_comment_lines_witness :
    get_timings (fun _ => true) ("t".data)
      (("m".data) :: [['#', 'a'], ['#', 'b']] ++ ("xx|y".data) :: []) =
      .error (.badTrack .badStartTime ("t".data) 4) := by
  have hw := (get_timings_comment_lines (fun _ => true) ("t".data) ("m".data)
      (by decide) rfl).2
    [['#', 'a'], ['#', 'b']] ("xx|y".data) [] .badStartTime (by decide)
    (by decide)
    (by rw [strip_no_space _ (by decide)]; decide)
    (by rw [strip_no_space _ (by decide)]; decide)
  simpa using hw

end FFMpegSplit
